import Mathlib

/-!
Shallow embedding of the crud-fruits persistence layer (src/database.py,
src/crud.py) over an explicit relational-store state, with theorems checking
the natural-language specification against it.

Modelling conventions:
* Text (`TEXT` columns) is `List Char`; SQLite's default BINARY collation is
  the lexicographic order on code points (`lexLe`), which coincides with byte
  order on the ASCII data at hand.
* Calendar dates (ISO `YYYY-MM-DD` strings, whose lexicographic order equals
  chronological order) are day numbers `Nat`; a nullable date is `Option Nat`.
* `REAL` prices are `ℚ`: no claim involves float rounding, only storage,
  retrieval and comparison.
* A table is a list of rows in rowid (insertion) order; `AUTOINCREMENT` is the
  `nextFruitId` / `nextCategoryId` counters.  `ORDER BY` is a stable sort of
  that list (`sortOn`), matching SQLite's sequential-scan-plus-sort on these
  index-free tables.
* Each Python function that catches `sqlite3.Error` and returns `False` is
  modelled in its normal (fault-free) run; where a claim is about fault
  behaviour the function takes an explicit `fault` flag selecting the
  `except` branch.
-/

/-- Lexicographic `≤` on strings as lists of characters; this is SQLite's
BINARY collation used by every `ORDER BY name` in src/crud.py. -/
def lexLe : List Char → List Char → Bool
  | [], _ => true
  | _ :: _, [] => false
  | a :: as, b :: bs => if a < b then true else if a = b then lexLe as bs else false

/-- `≤` on nullable dates as SQLite `ORDER BY` sees them: `NULL` sorts first. -/
def optLe : Option Nat → Option Nat → Bool
  | none, _ => true
  | some _, none => false
  | some a, some b => a ≤ b

/-- Stable insertion of `x` into `l`: `x` goes in front of the first element
it compares `le` to, so an element inserted later never jumps over an equal
key that was already present. -/
def insOn (le : α → α → Bool) (x : α) : List α → List α
  | [] => [x]
  | y :: ys => if le x y then x :: y :: ys else y :: insOn le x ys

/-- Stable sort by `le`, modelling `ORDER BY` over a table scanned in rowid
order. -/
def sortOn (le : α → α → Bool) : List α → List α
  | [] => []
  | x :: xs => insOn le x (sortOn le xs)

/-- Row of the `fruits` table created in src/database.py `create_tables`:
`id INTEGER PRIMARY KEY AUTOINCREMENT, name TEXT NOT NULL, quantity INTEGER
NOT NULL, price REAL NOT NULL, storage_location TEXT NOT NULL, expiry_date
TEXT, added_date TEXT DEFAULT CURRENT_DATE`. -/
structure Fruit where
  id : Nat
  name : List Char
  quantity : Int
  price : ℚ
  storage_location : List Char
  expiry_date : Option Nat
  added_date : Nat
deriving DecidableEq

/-- Row of the `categories` table: `id INTEGER PRIMARY KEY AUTOINCREMENT,
name TEXT NOT NULL UNIQUE`. -/
structure Category where
  id : Nat
  name : List Char
deriving DecidableEq

/-- The relational state behind an open connection: the three tables of
src/database.py in rowid (insertion) order, plus the `AUTOINCREMENT`
counters.  A link is a `(fruit_id, category_id)` pair. -/
structure DB where
  fruits : List Fruit
  nextFruitId : Nat
  categories : List Category
  nextCategoryId : Nat
  links : List (Nat × Nat)
deriving DecidableEq

def emptyDB : DB :=
  { fruits := [], nextFruitId := 1, categories := [], nextCategoryId := 1, links := [] }

/-- Invariant maintained by `AUTOINCREMENT`: every stored id is below the
next id to be assigned, and ids strictly increase in insertion order. -/
def WF (db : DB) : Prop :=
  (∀ f ∈ db.fruits, f.id < db.nextFruitId) ∧
  List.Pairwise (fun a b => a.id < b.id) db.fruits

/-- `ORDER BY name` key. -/
def nameLe (a b : Fruit) : Bool := lexLe a.name b.name

/-- `ORDER BY expiry_date` key. -/
def expLe (a b : Fruit) : Bool := optLe a.expiry_date b.expiry_date

/-- src/crud.py `add_fruit` (lines 6-35): `INSERT INTO fruits (name, quantity,
price, storage_location, expiry_date) VALUES (?, ?, ?, ?, ?)` then `commit`;
no validation of any argument; `added_date` takes its `DEFAULT CURRENT_DATE`
(the `today` parameter) and `id` the next autoincrement value; returns `True`
on the normal path. -/
def add_fruit (today : Nat) (name : List Char) (quantity : Int) (price : ℚ)
    (storage_location : List Char) (expiry_date : Option Nat) (db : DB) : Bool × DB :=
  (true,
   { db with
       fruits := db.fruits ++
         [{ id := db.nextFruitId, name := name, quantity := quantity, price := price,
            storage_location := storage_location, expiry_date := expiry_date,
            added_date := today }],
       nextFruitId := db.nextFruitId + 1 })

/-- src/crud.py `add_category` (lines 37-61): `INSERT INTO categories (name)
VALUES (?)`; the `UNIQUE` constraint on `categories.name` makes the insert
raise `sqlite3.IntegrityError` when the name is already present, which the
`except sqlite3.Error` branch turns into `False` with no row added. -/
def add_category (name : List Char) (db : DB) : Bool × DB :=
  if db.categories.any (fun c => c.name == name) then (false, db)
  else
    (true,
     { db with
         categories := db.categories ++ [{ id := db.nextCategoryId, name := name }],
         nextCategoryId := db.nextCategoryId + 1 })

/-- src/crud.py `get_fruit_by_id` (lines 111-131): `SELECT ... FROM fruits
WHERE id = ?` with `fetchone`, i.e. the first row in scan order whose id
matches (`None` when there is none). -/
def get_fruit_by_id (fruit_id : Nat) (db : DB) : Option Fruit :=
  db.fruits.find? (fun f => f.id == fruit_id)

/-- src/crud.py `get_all_fruits` (lines 91-109): `SELECT ... FROM fruits
ORDER BY name`. -/
def get_all_fruits (db : DB) : List Fruit :=
  sortOn nameLe db.fruits

/-- src/crud.py `get_fruits_by_category` (lines 133-155): join of `fruits`
with `fruit_categories` on `f.id = fc.fruit_id` restricted to
`fc.category_id = ?`, `ORDER BY f.name`. -/
def get_fruits_by_category (category_id : Nat) (db : DB) : List Fruit :=
  sortOn nameLe (db.fruits.filter (fun f => db.links.contains (f.id, category_id)))

/-- src/crud.py `get_expiring_fruits` (lines 177-201): rows with
`expiry_date IS NOT NULL AND date(expiry_date) <= date(today, '+N days')
AND date(expiry_date) >= date(today)`, `ORDER BY expiry_date`. -/
def get_expiring_fruits (today : Nat) (days : Nat) (db : DB) : List Fruit :=
  sortOn expLe (db.fruits.filter (fun f =>
    match f.expiry_date with
    | none => false
    | some e => decide (today ≤ e) && decide (e ≤ today + days)))

/-- ASCII lowering; SQLite's `LIKE` is case-insensitive exactly on the ASCII
range. -/
def lowerChar (c : Char) : Char :=
  if 'A' ≤ c ∧ c ≤ 'Z' then Char.ofNat (c.toNat + 32) else c

def lowerStr (s : List Char) : List Char := s.map lowerChar

/-- All suffixes of a list, longest first (the list itself down to `[]`). -/
def suffixesOf : List α → List (List α)
  | [] => [[]]
  | c :: s => (c :: s) :: suffixesOf s

/-- SQLite `LIKE` pattern matching as used by `search_fruits`: `%` matches any
(possibly empty) sequence — i.e. the rest of the pattern matches some suffix —
`_` any single character, anything else one character up to ASCII case. -/
def likeMatch : List Char → List Char → Bool
  | [], s => s.isEmpty
  | p :: ps, s =>
    if p = '%' then (suffixesOf s).any (fun t => likeMatch ps t)
    else
      match s with
      | [] => false
      | c :: s2 => (decide (p = '_') || decide (lowerChar p = lowerChar c)) && likeMatch ps s2

/-- src/crud.py `search_fruits` (lines 203-225): `WHERE name LIKE ? OR
storage_location LIKE ?` with pattern `%term%` (the term is not escaped),
`ORDER BY name`. -/
def search_fruits (term : List Char) (db : DB) : List Fruit :=
  sortOn nameLe (db.fruits.filter (fun f =>
    likeMatch ('%' :: (term ++ ['%'])) f.name ||
    likeMatch ('%' :: (term ++ ['%'])) f.storage_location))

/-- src/crud.py `update_fruit` (lines 228-259): `UPDATE fruits SET name = ?,
quantity = ?, price = ?, storage_location = ?, expiry_date = ? WHERE id = ?`,
returning `cursor.rowcount > 0`; the `except sqlite3.Error` branch (the
`fault` flag) returns `False` with the state unchanged. -/
def update_fruit (fruit_id : Nat) (name : List Char) (quantity : Int) (price : ℚ)
    (storage_location : List Char) (expiry_date : Option Nat) (fault : Bool)
    (db : DB) : Bool × DB :=
  if fault then (false, db)
  else
    (db.fruits.any (fun f => f.id == fruit_id),
     { db with
         fruits := db.fruits.map (fun f =>
           if f.id = fruit_id then
             { f with name := name, quantity := quantity, price := price,
                      storage_location := storage_location, expiry_date := expiry_date }
           else f) })

/-- src/crud.py `update_fruit_quantity` (lines 261-287): `UPDATE fruits SET
quantity = ? WHERE id = ?`, returning `cursor.rowcount > 0`; the
`except sqlite3.Error` branch (the `fault` flag) returns `False` unchanged. -/
def update_fruit_quantity (fruit_id : Nat) (quantity : Int) (fault : Bool)
    (db : DB) : Bool × DB :=
  if fault then (false, db)
  else
    (db.fruits.any (fun f => f.id == fruit_id),
     { db with
         fruits := db.fruits.map (fun f =>
           if f.id = fruit_id then { f with quantity := quantity } else f) })

/-- src/crud.py `delete_fruit` (lines 318-342): `DELETE FROM fruits WHERE
id = ?`, returning `cursor.rowcount > 0`; because src/database.py opens the
connection with `PRAGMA foreign_keys = ON` and `fruit_categories` declares
`FOREIGN KEY (fruit_id) REFERENCES fruits (id) ON DELETE CASCADE`, every link
whose `fruit_id` matches is removed with the row. -/
def delete_fruit (fruit_id : Nat) (db : DB) : Bool × DB :=
  (db.fruits.any (fun f => f.id == fruit_id),
   { db with
       fruits := db.fruits.filter (fun f => f.id != fruit_id),
       links := db.links.filter (fun l => l.1 != fruit_id) })

/-- State of the storage medium seen by the Schema Manager: each relation of
src/database.py `create_tables` either absent or present with its rows. -/
structure Store where
  fruitsTable : Option (List Fruit)
  categoriesTable : Option (List Category)
  linksTable : Option (List (Nat × Nat))
deriving DecidableEq

/-- One `CREATE TABLE IF NOT EXISTS` statement: creates the (empty) relation
when absent, touches nothing when present. -/
def createIfAbsent (t : Option (List α)) : Option (List α) :=
  match t with
  | none => some []
  | some rows => some rows

/-- src/database.py `create_tables` (lines 28-64): the three
`CREATE TABLE IF NOT EXISTS` statements for `fruits`, `categories` and
`fruit_categories`, then `commit`. -/
def create_tables (s : Store) : Store :=
  { fruitsTable := createIfAbsent s.fruitsTable,
    categoriesTable := createIfAbsent s.categoriesTable,
    linksTable := createIfAbsent s.linksTable }

/-- All three relations of the schema are present. -/
def provisioned (s : Store) : Prop :=
  s.fruitsTable.isSome = true ∧ s.categoriesTable.isSome = true ∧ s.linksTable.isSome = true

/-- Convenience: a Lean string literal as a `TEXT` value. -/
def chars (s : String) : List Char := s.toList

/-- Sample row mirroring the seed data of src/database.py (`Apple` in
`Cold Storage A`); with day 0 = 2023-10-11, day 35 is 2023-11-15. -/
def appleRow : Fruit :=
  { id := 1, name := chars "Apple", quantity := 100, price := 1,
    storage_location := chars "Cold Storage A", expiry_date := some 35, added_date := 0 }

/-- Sample row (`Banana` at `Room Temp`); day 51 is 2023-12-01. -/
def bananaRow : Fruit :=
  { id := 2, name := chars "Banana", quantity := 150, price := 1,
    storage_location := chars "Room Temp", expiry_date := some 51, added_date := 0 }

/-- A small populated store: two fruits, one category, one link. -/
def sampleDB : DB :=
  { fruits := [appleRow, bananaRow], nextFruitId := 3,
    categories := [{ id := 1, name := chars "Citrus" }], nextCategoryId := 2,
    links := [(1, 1)] }

/-- The store after inserting Mango, Apple, Banana in that order. -/
def dbMAB : DB :=
  (add_fruit 0 (chars "Banana") 1 1 [] none
    (add_fruit 0 (chars "Apple") 1 1 [] none
      (add_fruit 0 (chars "Mango") 1 1 [] none emptyDB).2).2).2

/-- A store whose three relations are all present. -/
def provisionedStore : Store :=
  { fruitsTable := some [], categoriesTable := some [], linksTable := some [] }
theorem lexLe_refl (s : List Char) : lexLe s s = true := by
  induction s with
  | nil => rfl
  | cons a as ih => simp [lexLe, ih]

theorem lexLe_total (a b : List Char) : lexLe a b = false → lexLe b a = true := by
  induction a generalizing b with
  | nil => intro h; simp [lexLe] at h
  | cons x xs ih =>
    intro h
    cases b with
    | nil => rfl
    | cons y ys =>
      simp only [lexLe] at h ⊢
      rcases lt_trichotomy x y with hlt | heq | hgt
      · simp [hlt] at h
      · subst heq
        simp only [lt_irrefl, if_false, if_pos rfl] at h ⊢
        exact ih ys h
      · simp [hgt]

theorem lexLe_trans (a b c : List Char) :
    lexLe a b = true → lexLe b c = true → lexLe a c = true := by
  induction a generalizing b c with
  | nil => intro _ _; rfl
  | cons x xs ih =>
    intro hab hbc
    cases b with
    | nil => simp [lexLe] at hab
    | cons y ys =>
      cases c with
      | nil => simp [lexLe] at hbc
      | cons z zs =>
        simp only [lexLe] at hab hbc ⊢
        by_cases hxy : x < y
        · by_cases hyz : y < z
          · simp [lt_trans hxy hyz]
          · simp only [if_neg hyz] at hbc
            by_cases hyz2 : y = z
            · subst hyz2; simp [hxy]
            · simp [hyz2] at hbc
        · simp only [if_neg hxy] at hab
          by_cases hxy2 : x = y
          · subst hxy2
            simp only [if_pos rfl] at hab
            by_cases hyz : x < z
            · simp [hyz]
            · simp only [if_neg hyz] at hbc ⊢
              by_cases hyz2 : x = z
              · subst hyz2
                simp only [if_pos rfl] at hbc ⊢
                exact ih ys zs hab hbc
              · simp [hyz2] at hbc
          · simp [hxy2] at hab

theorem lexLe_eq_of_not_le {a b : List Char} (h : lexLe a b = false) : a ≠ b := by
  intro heq; subst heq; rw [lexLe_refl a] at h; simp at h


theorem optLe_total (a b : Option Nat) : optLe a b = false → optLe b a = true := by
  cases a <;> cases b <;> simp [optLe] <;> omega

theorem optLe_trans (a b c : Option Nat) :
    optLe a b = true → optLe b c = true → optLe a c = true := by
  cases a <;> cases b <;> cases c <;> simp [optLe] <;> omega


theorem perm_insOn (le : α → α → Bool) (x : α) (l : List α) :
    List.Perm (insOn le x l) (x :: l) := by
  induction l with
  | nil => exact List.Perm.refl _
  | cons y ys ih =>
    by_cases h : le x y = true
    · simp [insOn, h]
    · simp only [insOn, if_neg h]
      exact List.Perm.trans (List.Perm.cons y ih) (List.Perm.swap x y ys)

theorem perm_sortOn (le : α → α → Bool) (l : List α) : List.Perm (sortOn le l) l := by
  induction l with
  | nil => exact List.Perm.refl _
  | cons x xs ih =>
    exact List.Perm.trans (perm_insOn le x (sortOn le xs)) (List.Perm.cons x ih)

theorem mem_sortOn (le : α → α → Bool) (l : List α) (a : α) :
    a ∈ sortOn le l ↔ a ∈ l :=
  (perm_sortOn le l).mem_iff

theorem pairwise_insOn (le : α → α → Bool)
    (htot : ∀ a b, le a b = false → le b a = true)
    (htrans : ∀ a b c, le a b = true → le b c = true → le a c = true)
    (x : α) (l : List α) (h : List.Pairwise (fun a b => le a b = true) l) :
    List.Pairwise (fun a b => le a b = true) (insOn le x l) := by
  induction l with
  | nil => simpa [insOn] using h
  | cons y ys ih =>
    rcases List.pairwise_cons.mp h with ⟨hy, hys⟩
    by_cases hxy : le x y = true
    · simp only [insOn, if_pos hxy]
      refine List.Pairwise.cons ?_ h
      intro z hz
      rw [List.mem_cons] at hz
      rcases hz with heq | hmem
      · subst heq; exact hxy
      · exact htrans x y z hxy (hy z hmem)
    · simp only [insOn, if_neg hxy]
      refine List.Pairwise.cons ?_ (ih hys)
      intro z hz
      rw [(perm_insOn le x ys).mem_iff, List.mem_cons] at hz
      rcases hz with heq | hmem
      · rw [heq]; exact htot x y (by simpa using hxy)
      · exact hy z hmem

/-- A relation already `Pairwise` on the input survives the stable insertion,
provided it holds backwards across any strict key inversion (in our uses it is
vacuous there because the keys differ). -/
theorem pairwise_rel_insOn (le : α → α → Bool) (S : α → α → Prop)
    (hS : ∀ a b, le a b = false → S b a)
    (x : α) (l : List α) (hx : ∀ y ∈ l, S x y) (h : List.Pairwise S l) :
    List.Pairwise S (insOn le x l) := by
  induction l with
  | nil => simpa [insOn] using h
  | cons y ys ih =>
    rcases List.pairwise_cons.mp h with ⟨hy, hys⟩
    by_cases hxy : le x y = true
    · simp only [insOn, if_pos hxy]
      exact List.Pairwise.cons hx h
    · simp only [insOn, if_neg hxy]
      refine List.Pairwise.cons ?_ (ih (fun z hz => hx z (List.mem_cons_of_mem y hz)) hys)
      intro z hz
      rw [(perm_insOn le x ys).mem_iff, List.mem_cons] at hz
      rcases hz with heq | hmem
      · rw [heq]; exact hS x y (by simpa using hxy)
      · exact hy z hmem

theorem pairwise_sortOn (le : α → α → Bool)
    (htot : ∀ a b, le a b = false → le b a = true)
    (htrans : ∀ a b c, le a b = true → le b c = true → le a c = true)
    (l : List α) : List.Pairwise (fun a b => le a b = true) (sortOn le l) := by
  induction l with
  | nil => exact List.Pairwise.nil
  | cons x xs ih => exact pairwise_insOn le htot htrans x (sortOn le xs) ih

theorem pairwise_rel_sortOn (le : α → α → Bool) (S : α → α → Prop)
    (hS : ∀ a b, le a b = false → S b a)
    (l : List α) (h : List.Pairwise S l) : List.Pairwise S (sortOn le l) := by
  induction l with
  | nil => exact List.Pairwise.nil
  | cons x xs ih =>
    rcases List.pairwise_cons.mp h with ⟨hx, hxs⟩
    refine pairwise_rel_insOn le S hS x (sortOn le xs) ?_ (ih hxs)
    intro y hy
    exact hx y ((perm_sortOn le xs).mem_iff.mp hy)


/-- C8: `create_tables` is idempotent.  On an already-provisioned store it is
the identity — no error (the function is total), no relation re-created, all
rows untouched — and in general running it twice equals running it once. -/
theorem create_tables_idempotent (s : Store) :
    (provisioned s → create_tables s = s) ∧
    create_tables (create_tables s) = create_tables s := by
  obtain ⟨f, c, l⟩ := s
  constructor
  · rintro ⟨h1, h2, h3⟩
    cases f <;> cases c <;> cases l <;> simp_all [create_tables, createIfAbsent, provisioned]
  · cases f <;> cases c <;> cases l <;> rfl

theorem create_tables_idempotent_witness :
    create_tables provisionedStore = provisionedStore :=
  (create_tables_idempotent provisionedStore).1 ⟨rfl, rfl, rfl⟩

/-- C5: inserting a category whose name is already present violates the
UNIQUE constraint on `categories.name`, so `add_category` fails and adds
nothing: it returns `False` with the store unchanged. -/
theorem add_category_duplicate (name : List Char) (db : DB)
    (h : ∃ c ∈ db.categories, c.name = name) :
    add_category name db = (false, db) := by
  rcases h with ⟨c, hc, hname⟩
  have hany : db.categories.any (fun c => c.name == name) = true :=
    List.any_eq_true.mpr ⟨c, hc, by simp [hname]⟩
  simp [add_category, hany]

theorem add_category_duplicate_witness :
    add_category (chars "Citrus") (add_category (chars "Citrus") emptyDB).2 =
      (false, (add_category (chars "Citrus") emptyDB).2) :=
  add_category_duplicate (chars "Citrus") (add_category (chars "Citrus") emptyDB).2
    ⟨{ id := 1, name := chars "Citrus" }, by decide, rfl⟩

/-- C2 counterexample: `add_fruit` rejects nothing.  With an empty name, zero
quantity and zero price it still returns `True` and inserts the row. -/
theorem add_fruit_counterexample :
    (add_fruit 0 [] 0 0 [] none emptyDB).1 = true ∧
    (add_fruit 0 [] 0 0 [] none emptyDB).2.fruits =
      [{ id := 1, name := [], quantity := 0, price := 0, storage_location := [],
         expiry_date := none, added_date := 0 }] :=
  ⟨rfl, rfl⟩

/-- C2 (amended): `add_fruit` performs no validation.  Even when the name is
empty, the quantity is below 1, or the price is below 0.01, it returns `True`
and appends exactly one row holding the supplied values; the minimums are
enforced only by the presentation layer, not by this repository function. -/
theorem add_fruit_no_validation (today : Nat) (name : List Char) (quantity : Int)
    (price : ℚ) (storage_location : List Char) (expiry_date : Option Nat) (db : DB)
    (h : name = [] ∨ quantity < 1 ∨ price < 1/100) :
    (add_fruit today name quantity price storage_location expiry_date db).1 = true ∧
    (add_fruit today name quantity price storage_location expiry_date db).2.fruits =
      db.fruits ++
        [{ id := db.nextFruitId, name := name, quantity := quantity, price := price,
           storage_location := storage_location, expiry_date := expiry_date,
           added_date := today }] :=
  ⟨rfl, rfl⟩

theorem add_fruit_no_validation_witness :
    (add_fruit 0 [] 0 0 [] none emptyDB).2.fruits =
      [{ id := 1, name := [], quantity := 0, price := 0, storage_location := [],
         expiry_date := none, added_date := 0 }] :=
  (add_fruit_no_validation 0 [] 0 0 [] none emptyDB (Or.inl rfl)).2

/-- C3 counterexample: updating a missing id and hitting a storage fault
produce the very same outcome `(False, unchanged store)`: `update_fruit`
gives the caller nothing to tell NotFound apart from a fault. -/
theorem update_fruit_counterexample :
    update_fruit 1 [] 0 0 [] none false emptyDB = (false, emptyDB) ∧
    update_fruit 1 [] 0 0 [] none true emptyDB = (false, emptyDB) :=
  ⟨rfl, rfl⟩

/-- C3 (amended): when no row carries the requested id, `update_fruit`
affects no row and returns `False` with the store unchanged — but its
storage-fault branch returns exactly the same `False` with the store
unchanged, so the caller cannot distinguish the two outcomes. -/
theorem update_fruit_notFound_eq_fault (fruit_id : Nat) (name : List Char)
    (quantity : Int) (price : ℚ) (storage_location : List Char)
    (expiry_date : Option Nat) (db : DB)
    (h : ∀ f ∈ db.fruits, f.id ≠ fruit_id) :
    update_fruit fruit_id name quantity price storage_location expiry_date false db =
      (false, db) ∧
    update_fruit fruit_id name quantity price storage_location expiry_date true db =
      (false, db) := by
  refine ⟨?_, rfl⟩
  have hany : db.fruits.any (fun f => f.id == fruit_id) = false :=
    List.any_eq_false.mpr (fun f hf => by simp [h f hf])
  have hmap : db.fruits.map (fun f =>
      if f.id = fruit_id then
        { f with name := name, quantity := quantity, price := price,
                 storage_location := storage_location, expiry_date := expiry_date }
      else f) = db.fruits := by
    have hcong : ∀ f ∈ db.fruits, (if f.id = fruit_id then
        { f with name := name, quantity := quantity, price := price,
                 storage_location := storage_location, expiry_date := expiry_date }
      else f) = f := fun f hf => if_neg (h f hf)
    rw [List.map_congr_left hcong]; exact List.map_id' db.fruits
  simp [update_fruit, hany, hmap]

theorem update_fruit_notFound_eq_fault_witness :
    update_fruit 7 [] 0 0 [] none false sampleDB = (false, sampleDB) :=
  (update_fruit_notFound_eq_fault 7 [] 0 0 [] none sampleDB (by decide)).1

/-- C10: in a fault-free run, `update_fruit_quantity` rewrites the quantity
of exactly the rows whose id matches, preserves every other field of those
rows, every other row positionally, and the other tables and counters, and
returns `True` precisely when some row carries that id. -/
theorem update_fruit_quantity_spec (fruit_id : Nat) (q : Int) (db : DB) :
    ((update_fruit_quantity fruit_id q false db).1 = true ↔
       ∃ f ∈ db.fruits, f.id = fruit_id) ∧
    List.Forall₂ (fun f g =>
        g.id = f.id ∧ g.name = f.name ∧ g.price = f.price ∧
        g.storage_location = f.storage_location ∧ g.expiry_date = f.expiry_date ∧
        g.added_date = f.added_date ∧
        (f.id = fruit_id → g.quantity = q) ∧ (f.id ≠ fruit_id → g.quantity = f.quantity))
      db.fruits (update_fruit_quantity fruit_id q false db).2.fruits ∧
    (update_fruit_quantity fruit_id q false db).2.categories = db.categories ∧
    (update_fruit_quantity fruit_id q false db).2.links = db.links ∧
    (update_fruit_quantity fruit_id q false db).2.nextFruitId = db.nextFruitId ∧
    (update_fruit_quantity fruit_id q false db).2.nextCategoryId = db.nextCategoryId := by
  refine ⟨?_, ?_, rfl, rfl, rfl, rfl⟩
  · simp [update_fruit_quantity, List.any_eq_true]
  · show List.Forall₂ _ db.fruits (db.fruits.map (fun f =>
      if f.id = fruit_id then { f with quantity := q } else f))
    rw [List.forall₂_map_right_iff, List.forall₂_same]
    intro f hf
    by_cases hid : f.id = fruit_id <;> simp [hid]

theorem update_fruit_quantity_spec_witness :
    (update_fruit_quantity 1 55 false sampleDB).1 = true :=
  (update_fruit_quantity_spec 1 55 sampleDB).1.mpr ⟨appleRow, List.Mem.head _, rfl⟩

/-- C4: deleting a stored id reports success; afterwards the point lookup of
that id yields nothing, every category link referencing the id is gone (the
`ON DELETE CASCADE` enabled by `PRAGMA foreign_keys = ON`), and no category
listing contains the deleted item any more. -/
theorem delete_fruit_spec (fruit_id : Nat) (db : DB)
    (h : ∃ f ∈ db.fruits, f.id = fruit_id) :
    (delete_fruit fruit_id db).1 = true ∧
    get_fruit_by_id fruit_id (delete_fruit fruit_id db).2 = none ∧
    (∀ l ∈ (delete_fruit fruit_id db).2.links, l.1 ≠ fruit_id) ∧
    (∀ cid, ∀ f ∈ get_fruits_by_category cid (delete_fruit fruit_id db).2,
      f.id ≠ fruit_id) := by
  obtain ⟨f0, hf0, hid0⟩ := h
  refine ⟨List.any_eq_true.mpr ⟨f0, hf0, by simp [hid0]⟩, ?_, ?_, ?_⟩
  · apply List.find?_eq_none.mpr
    intro x hx
    have hne := (List.mem_filter.mp hx).2
    simpa using hne
  · intro l hl
    have hne := (List.mem_filter.mp hl).2
    simpa using hne
  · intro cid f hf
    have hf2 := (mem_sortOn _ _ _).mp hf
    have hf3 := (List.mem_filter.mp hf2).1
    have hne := (List.mem_filter.mp hf3).2
    simpa using hne

theorem delete_fruit_spec_witness :
    (delete_fruit 1 sampleDB).1 = true ∧
    get_fruit_by_id 1 (delete_fruit 1 sampleDB).2 = none := by
  have h := delete_fruit_spec 1 sampleDB ⟨appleRow, List.Mem.head _, rfl⟩
  exact ⟨h.1, h.2.1⟩

/-- C1: for valid inputs (non-empty name, quantity at least 1, price at least
0.01), `add_fruit` stores the row under the fresh autoincrement identity, and
`get_fruit_by_id` at that identity returns a record carrying exactly the
supplied name, quantity, price, storage location and expiry date, together
with that (never-null) identity and the creation date. -/
theorem add_fruit_get_roundtrip (today : Nat) (name : List Char) (quantity : Int)
    (price : ℚ) (storage_location : List Char) (expiry_date : Option Nat) (db : DB)
    (hwf : WF db) (hname : name ≠ []) (hq : 1 ≤ quantity) (hp : 1/100 ≤ price) :
    get_fruit_by_id db.nextFruitId
        (add_fruit today name quantity price storage_location expiry_date db).2 =
      some { id := db.nextFruitId, name := name, quantity := quantity, price := price,
             storage_location := storage_location, expiry_date := expiry_date,
             added_date := today } := by
  have hnone : db.fruits.find? (fun f => f.id == db.nextFruitId) = none :=
    List.find?_eq_none.mpr (fun f hf => by
      have hlt := hwf.1 f hf
      simp only [beq_iff_eq]
      omega)
  show (db.fruits ++ [_]).find? _ = _
  rw [List.find?_append, hnone]
  simp

theorem add_fruit_get_roundtrip_witness :
    get_fruit_by_id 1
        (add_fruit 0 (chars "Apple") 1 (1/100) (chars "Shelf") (some 35) emptyDB).2 =
      some { id := 1, name := chars "Apple", quantity := 1, price := 1/100,
             storage_location := chars "Shelf", expiry_date := some 35,
             added_date := 0 } :=
  add_fruit_get_roundtrip 0 (chars "Apple") 1 (1/100) (chars "Shelf") (some 35) emptyDB
    ⟨fun f hf => absurd hf (List.not_mem_nil f), List.Pairwise.nil⟩
    (by decide) (le_refl 1) (le_refl (1/100))

/-- C9: `get_all_fruits` returns a permutation of the whole `fruits` table
that is sorted by name ascending under the case-sensitive BINARY collation,
with rows of equal name in id (= insertion) order — a characterisation
independent of the order in which the rows were inserted. -/
theorem get_all_fruits_spec (db : DB) (hwf : WF db) :
    List.Perm (get_all_fruits db) db.fruits ∧
    List.Pairwise (fun a b => nameLe a b = true) (get_all_fruits db) ∧
    List.Pairwise (fun a b => a.name = b.name → a.id < b.id) (get_all_fruits db) := by
  refine ⟨perm_sortOn _ _,
    pairwise_sortOn _ (fun a b h => lexLe_total a.name b.name h)
      (fun a b c h1 h2 => lexLe_trans a.name b.name c.name h1 h2) _, ?_⟩
  apply pairwise_rel_sortOn
  · intro a b hfalse heq
    exact absurd heq.symm (lexLe_eq_of_not_le hfalse)
  · exact hwf.2.imp (fun hlt => fun _ => hlt)

theorem get_all_fruits_spec_witness :
    (get_all_fruits dbMAB).map (fun f => f.name) =
      [chars "Apple", chars "Banana", chars "Mango"] ∧
    List.Pairwise (fun a b => nameLe a b = true) (get_all_fruits dbMAB) := by
  have h := get_all_fruits_spec dbMAB ⟨by decide, by decide⟩
  exact ⟨by decide, h.2.1⟩

/-- C6: `get_expiring_fruits` holds exactly the rows whose expiry date is
non-null and lies in the inclusive window `[today, today + days]`, sorted by
expiry date ascending (soonest first). -/
theorem get_expiring_fruits_spec (today days : Nat) (db : DB) :
    (∀ f, f ∈ get_expiring_fruits today days db ↔
       f ∈ db.fruits ∧ ∃ e, f.expiry_date = some e ∧ today ≤ e ∧ e ≤ today + days) ∧
    List.Pairwise (fun a b => expLe a b = true) (get_expiring_fruits today days db) := by
  constructor
  · intro f
    rw [get_expiring_fruits, mem_sortOn, List.mem_filter]
    constructor
    · rintro ⟨hmem, hp⟩
      refine ⟨hmem, ?_⟩
      cases he : f.expiry_date with
      | none => rw [he] at hp; simp at hp
      | some e =>
        rw [he] at hp
        simp only [Bool.and_eq_true, decide_eq_true_eq] at hp
        exact ⟨e, rfl, hp.1, hp.2⟩
    · rintro ⟨hmem, e, he, h1, h2⟩
      refine ⟨hmem, ?_⟩
      rw [he]
      simp [h1, h2]
  · exact pairwise_sortOn expLe
      (fun a b h => optLe_total a.expiry_date b.expiry_date h)
      (fun a b c h1 h2 => optLe_trans a.expiry_date b.expiry_date c.expiry_date h1 h2) _

theorem get_expiring_fruits_spec_witness :
    appleRow ∈ get_expiring_fruits 30 7 sampleDB ∧
    bananaRow ∉ get_expiring_fruits 30 7 sampleDB := by
  have h := get_expiring_fruits_spec 30 7 sampleDB
  constructor
  · exact (h.1 appleRow).mpr
      ⟨List.Mem.head _, 35, rfl, by omega, by omega⟩
  · intro hmem
    obtain ⟨e, he, h1, h2⟩ := ((h.1 bananaRow).mp hmem).2
    have he51 : some 51 = some e := he
    injection he51 with he51
    omega

theorem mem_suffixesOf (s t : List α) : t ∈ suffixesOf s ↔ t <:+ s := by
  induction s with
  | nil => simp [suffixesOf, List.suffix_nil]
  | cons c s ih => simp [suffixesOf, List.suffix_cons_iff, ih]

/-- A leading `%` means: the rest of the pattern matches some suffix. -/
theorem likeMatch_pct (ps s : List Char) :
    likeMatch ('%' :: ps) s = true ↔ ∃ t, t <:+ s ∧ likeMatch ps t = true := by
  simp [likeMatch, List.any_eq_true, mem_suffixesOf]

/-- A metacharacter-free pattern followed by `%` matches exactly the strings
it is a case-insensitive beginning of. -/
theorem likeMatch_lit_pct (lit : List Char) (hlit : ∀ c ∈ lit, c ≠ '%' ∧ c ≠ '_') :
    ∀ s, likeMatch (lit ++ ['%']) s = true ↔ lowerStr lit <+: lowerStr s := by
  induction lit with
  | nil =>
    intro s
    simp only [List.nil_append, lowerStr, List.map_nil]
    constructor
    · intro _; exact List.nil_prefix
    · intro _
      rw [likeMatch_pct]
      exact ⟨[], List.nil_suffix, rfl⟩
  | cons p lit ih =>
    intro s
    obtain ⟨hp1, hp2⟩ := hlit p (List.mem_cons_self p lit)
    have ihs := ih (fun c hc => hlit c (List.mem_cons_of_mem p hc))
    cases s with
    | nil =>
      simp [likeMatch, hp1, lowerStr]
    | cons c s2 =>
      simp only [List.cons_append, likeMatch, if_neg hp1, lowerStr, List.map_cons,
        List.cons_prefix_cons, Bool.and_eq_true, Bool.or_eq_true, decide_eq_true_eq,
        hp2, false_or]
      rw [show lit.append ['%'] = lit ++ ['%'] from rfl, ihs s2]
      simp [lowerStr]

theorem suffix_of_map (f : α → β) (u : List β) (s : List α) (h : u <:+ List.map f s) :
    ∃ t, t <:+ s ∧ u = List.map f t := by
  induction s generalizing u with
  | nil =>
    rw [List.map_nil, List.suffix_nil] at h
    exact ⟨[], List.nil_suffix, h⟩
  | cons c s ih =>
    rw [List.map_cons, List.suffix_cons_iff] at h
    rcases h with h | h
    · exact ⟨c :: s, List.suffix_refl _, by rw [h, List.map_cons]⟩
    · obtain ⟨t, hts, rfl⟩ := ih u h
      exact ⟨t, hts.trans (List.suffix_cons c s), rfl⟩

/-- The pattern `%term%` built by `search_fruits` matches a string exactly
when the metacharacter-free term is a case-insensitive part of it. -/
theorem likeMatch_substring (term : List Char)
    (h : ∀ c ∈ term, c ≠ '%' ∧ c ≠ '_') (s : List Char) :
    likeMatch ('%' :: (term ++ ['%'])) s = true ↔ lowerStr term <:+: lowerStr s := by
  rw [likeMatch_pct]
  constructor
  · rintro ⟨t, hsuf, hm⟩
    have hpre := (likeMatch_lit_pct term h t).mp hm
    exact List.infix_iff_prefix_suffix.mpr ⟨lowerStr t, hpre, List.IsSuffix.map lowerChar hsuf⟩
  · intro hinf
    obtain ⟨u, hpre, hsuf⟩ := List.infix_iff_prefix_suffix.mp hinf
    obtain ⟨t, hts, rfl⟩ := suffix_of_map lowerChar u s hsuf
    exact ⟨t, hts, (likeMatch_lit_pct term h t).mpr hpre⟩

/-- C7 counterexample: the term is pasted unescaped into the LIKE pattern, so
a term made of the single wildcard `_` matches every row with a non-empty
name — here `Apple` — although `_` is not a substring of either field. -/
theorem search_fruits_counterexample :
    search_fruits (chars "_") sampleDB = [appleRow, bananaRow] ∧
    ¬ lowerStr (chars "_") <:+: lowerStr appleRow.name ∧
    ¬ lowerStr (chars "_") <:+: lowerStr appleRow.storage_location :=
  ⟨rfl, by decide, by decide⟩

/-- C7 (amended): for a search term free of the LIKE metacharacters `%` and
`_`, `search_fruits` returns exactly the rows whose name or storage location
contains the term case-insensitively (either field qualifies), sorted by name
ascending.  Terms containing a metacharacter escape pure substring semantics
because the code interpolates the raw term into the pattern `%term%`. -/
theorem search_fruits_spec (term : List Char) (db : DB)
    (h : ∀ c ∈ term, c ≠ '%' ∧ c ≠ '_') :
    (∀ f, f ∈ search_fruits term db ↔
       f ∈ db.fruits ∧ (lowerStr term <:+: lowerStr f.name ∨
                        lowerStr term <:+: lowerStr f.storage_location)) ∧
    List.Pairwise (fun a b => nameLe a b = true) (search_fruits term db) := by
  constructor
  · intro f
    rw [search_fruits, mem_sortOn, List.mem_filter]
    simp only [Bool.or_eq_true, likeMatch_substring term h]
  · exact pairwise_sortOn nameLe (fun a b hf => lexLe_total a.name b.name hf)
      (fun a b c h1 h2 => lexLe_trans a.name b.name c.name h1 h2) _

theorem search_fruits_spec_witness :
    appleRow ∈ search_fruits (chars "cold") sampleDB ∧
    bananaRow ∉ search_fruits (chars "cold") sampleDB := by
  have h := search_fruits_spec (chars "cold") sampleDB (by decide)
  constructor
  · exact (h.1 appleRow).mpr ⟨List.Mem.head _, Or.inr (by decide)⟩
  · intro hmem
    rcases ((h.1 bananaRow).mp hmem).2 with hc | hc
    · exact absurd hc (by decide)
    · exact absurd hc (by decide)
